import Mathlib

/-!
Shallow embedding of `src/python/pygimli/frameworks/modelling.py`
(pyGIMLi inversion-framework modelling proxies).

The module is a facade over a native engine.  The state this layer itself
owns is:

* `Modelling._regionProperties` — a dict from region id to a record of
  solver hints, written by `setRegionProperties` (last write wins per
  field) and applied lazily to the externally owned region manager by
  `_applyRegionProperties`, which `regionManager()` and the `transModel`
  getter invoke before returning;
* `LCModelling` bookkeeping — a list of per-sounding 1D forward
  operators (`_fops1D`), the sounding/parameter counts, and a block
  matrix whose entries record the (matrix id, row offset, column offset)
  placement of each per-sounding Jacobian.

Python floats passed as property values are modelled as rationals (`ℚ`);
region ids are naturals; transformation names are strings.  Python dicts
are modelled as association lists with insertion-order update semantics
(replace-in-place when the key is present, append when absent), matching
dict insertion order.
-/

set_option autoImplicit false

/-- One record of the `_regionProperties` dict: the per-region solver
hints created by `Modelling.setRegionProperties` (lines 76-83).  Every
record holds all six keys, since the initializer writes all of them. -/
structure RegionRecord where
  startModel : ℚ
  modelControl : ℚ
  zWeights : ℚ
  cType : Int
  limits : ℚ × ℚ
  trans : String
  deriving DecidableEq, Repr

/-- The default record inserted by `setRegionProperties` for a region not
yet in the cache (modelling.py lines 76-83). -/
def defaultRegionRecord : RegionRecord :=
  { startModel := 0
    modelControl := 1
    zWeights := 1
    cType := 1
    limits := (0, 0)
    trans := "Log" }

/-- The keyword arguments of one `setRegionProperties` call: each field is
`none` when the Python caller leaves the argument at its `None` default. -/
structure SetRegionArgs where
  startModel : Option ℚ
  limits : Option (ℚ × ℚ)
  trans : Option String
  cType : Option Int
  zWeights : Option ℚ
  modelControl : Option ℚ
  deriving DecidableEq, Repr

/-- The `_regionProperties` dict, as an association list in insertion
order; keys are unique for caches built by `setRegionProperties`. -/
abbrev RegionCache := List (Nat × RegionRecord)

/-- Dict lookup: first (and, for well-formed caches, only) binding. -/
def lookupRegion : RegionCache → Nat → Option RegionRecord
  | [], _ => none
  | (k, v) :: rest, r => if k = r then some v else lookupRegion rest r

/-- Dict write: replace the binding in place when the key is present,
append when absent (Python dict insertion-order semantics). -/
def updateRegion : RegionCache → Nat → RegionRecord → RegionCache
  | [], r, v => [(r, v)]
  | (k, w) :: rest, r, v =>
      if k = r then (k, v) :: rest else (k, w) :: updateRegion rest r v

/-- The per-field overwrite performed by the six `if ... is not None`
blocks of `setRegionProperties` (lines 85-101): each non-`None` argument
replaces the stored field, a `None` argument leaves it unchanged. -/
def applyArgs (rec : RegionRecord) (a : SetRegionArgs) : RegionRecord :=
  { startModel := a.startModel.getD rec.startModel
    limits := a.limits.getD rec.limits
    trans := a.trans.getD rec.trans
    cType := a.cType.getD rec.cType
    zWeights := a.zWeights.getD rec.zWeights
    modelControl := a.modelControl.getD rec.modelControl }

/-- `Modelling.setRegionProperties` (lines 71-101): initialize the
region's record to `defaultRegionRecord` when absent, then overwrite the
fields whose arguments are not `None`. -/
def setRegionProperties (cache : RegionCache) (region : Nat)
    (a : SetRegionArgs) : RegionCache :=
  updateRegion cache region
    (applyArgs ((lookupRegion cache region).getD defaultRegionRecord) a)

/-- A sequence of `setRegionProperties` calls, each a (region, kwargs)
pair, applied in order. -/
def applyCalls (cache : RegionCache) (calls : List (Nat × SetRegionArgs)) :
    RegionCache :=
  calls.foldl (fun c p => setRegionProperties c p.1 p.2) cache

/-- The sub-sequence of argument records of the calls that target region
`r`, in call order. -/
def callsFor (r : Nat) : List (Nat × SetRegionArgs) → List SetRegionArgs
  | [] => []
  | p :: rest => if p.1 = r then p.2 :: callsFor r rest else callsFor r rest

/-- `lastD d l` is the last `some` value in `l`, or `d` when `l` holds no
`some`: the "last non-`None` value passed, else the default". -/
def lastD {α : Type} (d : α) (l : List (Option α)) : α :=
  l.foldl (fun acc o => o.getD acc) d

/-! ## The externally owned region manager

The native region manager is opaque; only the state touched by this
layer's setter calls is modelled: per-region start model, transformation
string, constraint type, z-weight, model control and bounds, plus the
manager-level local-transformation data read by the `transModel`
getter. -/

/-- The slice of a native region's state written by
`_applyRegionProperties` via `setStartModel`, `setModelTransStr_`,
`setConstraintType`, `setZWeight`, `setModelControl`, `setLowerBound`
and `setUpperBound`. -/
structure RMRegion where
  startModel : ℚ
  transStr : String
  cType : Int
  zWeight : ℚ
  modelControl : ℚ
  lowerBound : ℚ
  upperBound : ℚ
  deriving DecidableEq, Repr

/-- The slice of the native region manager's state this layer touches or
reads: the per-region records, and the local-transformation data behind
`haveLocalTrans()` / `transModel()`. -/
structure RegionManager where
  regions : Nat → RMRegion
  haveLocalTrans : Bool
  localTransStr : String

/-- The setter calls issued for one cached region by the body of the
`for rID, vals in self._regionProperties.items()` loop
(modelling.py lines 110-127): start model, transformation, constraint
type, z-weight and model control are always set (every cached record
holds all keys, so the `if key in vals` guards always pass); the lower
and upper bounds are set only when the corresponding cached limit is
strictly positive. -/
def writeVals (vals : RegionRecord) (reg : RMRegion) : RMRegion :=
  { startModel := vals.startModel
    transStr := vals.trans
    cType := vals.cType
    zWeight := vals.zWeights
    modelControl := vals.modelControl
    lowerBound := if vals.limits.1 > 0 then vals.limits.1 else reg.lowerBound
    upperBound := if vals.limits.2 > 0 then vals.limits.2 else reg.upperBound }

/-- The loop of `_applyRegionProperties` (lines 109-127): fold over the
cached records in dict order, rewriting the targeted region's state on
the region manager; manager-level transformation data is untouched. -/
def applyProps : RegionCache → RegionManager → RegionManager
  | [], rm => rm
  | (rID, vals) :: rest, rm =>
      applyProps rest
        { rm with
          regions := fun r =>
            if r = rID then writeVals vals (rm.regions rID) else rm.regions r }

/-- The state of one `Modelling` facade object: its region-property
cache, its `_transModel` field (a transformation name), and the
externally owned region manager it configures. -/
structure ModellingState where
  regionProperties : RegionCache
  transModelField : String
  rm : RegionManager

/-- `Modelling._applyRegionProperties` (lines 104-127): read the cache
and issue the setter calls on the region manager.  The method body only
reads `self._regionProperties`, so the cache component is unchanged. -/
def applyRegionProperties (s : ModellingState) : ModellingState :=
  { s with rm := applyProps s.regionProperties s.rm }

/-- `Modelling.regionManager` (lines 45-52): initialize the native
manager if necessary (native, not modelled), apply all cached region
properties, and return the manager. -/
def regionManager (s : ModellingState) : ModellingState × RegionManager :=
  let s' := applyRegionProperties s
  (s', s'.rm)

/-- The `Modelling.transModel` property getter (lines 33-38): apply all
cached region properties, then return the region manager's local
transformation when it has one, else the facade's own `_transModel`. -/
def transModel (s : ModellingState) : ModellingState × String :=
  let s' := applyRegionProperties s
  if s'.rm.haveLocalTrans then (s', s'.rm.localTransStr)
  else (s', s.transModelField)

/-- `Modelling.createStartModel` (lines 129-134): raises
unconditionally. -/
def createStartModel (dataValues : List ℚ) : Except String (List ℚ) :=
  Except.error "Implement me in derived classes"

/-- `Modelling.estimateError` (lines 154-159): raises unconditionally
(the commented-out body is dead code). -/
def estimateError (data : List ℚ) : Except String (List ℚ) :=
  Except.error "Needed?? Implement me in derived classes"

/-! ## LCModelling: laterally constrained multi-sounding orchestration -/

/-- A per-sounding 1D forward operator, as used by `LCModelling`: its
forward response, and the multi-thread Jacobian count set on it.  A
fresh instance `type(self._fopTemplate)(self.verbose)` is modelled as a
copy of the template, since the class determines the behavior. -/
structure Fop1D where
  response : List ℚ → List ℚ
  multiThreadJacobian : Nat

instance : Inhabited Fop1D := ⟨⟨fun _ => [], 0⟩⟩

/-- The slice of the native `pg.BlockMatrix` state this layer writes:
how many sub-matrices were added (`addMatrix` returns the next index),
and the placement entries `(matrix id, row offset, column offset)`
recorded by `addMatrixEntry`.  `recalcMatrixSize` only refreshes cached
dimensions and is not modelled. -/
structure BlockMatrix where
  numMatrices : Nat
  entries : List (Nat × Nat × Nat)
  deriving DecidableEq, Repr

/-- `BlockMatrix.addMatrix`: register a sub-matrix, returning its id. -/
def BlockMatrix.addMatrix (bm : BlockMatrix) : Nat × BlockMatrix :=
  (bm.numMatrices, { bm with numMatrices := bm.numMatrices + 1 })

/-- `BlockMatrix.addMatrixEntry nID rowStart colStart`. -/
def BlockMatrix.addMatrixEntry (bm : BlockMatrix)
    (nID rowStart colStart : Nat) : BlockMatrix :=
  { bm with entries := bm.entries ++ [(nID, rowStart, colStart)] }

/-- `BlockMatrix.clear`: drop all sub-matrices and entries. -/
def BlockMatrix.clear (bm : BlockMatrix) : BlockMatrix :=
  { numMatrices := 0, entries := [] }

/-- The state of one `LCModelling` object (constructor lines 308-322).
`fops1DAttr` models the attribute literally named `fops1D` that line 429
(`self.fops1D = []`) creates; it is distinct from `fops1D_`, which
models `self._fops1D`, the list the constructor creates and `response`,
`createJacobian` and the `initJacobian` loop use. -/
structure LCState where
  fopTemplate : Fop1D
  fops1D_ : List Fop1D
  fops1DAttr : List Fop1D
  nSoundings : Nat
  parPerSounding : Nat
  jac : Option BlockMatrix
  installedJacobian : Option BlockMatrix

/-- Row-major reshape of a flat vector into `n` rows of `pps` entries,
the meaning of `np.asarray(par).reshape(nSoundings, parPerSounding)`
when `par` has length `n * pps`. -/
def reshapeRows : Nat → Nat → List ℚ → List (List ℚ)
  | 0, _, _ => []
  | n + 1, pps, l => l.take pps :: reshapeRows n pps (l.drop pps)

/-- `LCModelling.response` (lines 341-351): reshape `par` into one row
per sounding, then concatenate (`pg.cat`) each operator's response to
its row, starting from the empty vector `pg.RVector(0)`. -/
def LCresponse (s : LCState) (par : List ℚ) : List ℚ :=
  let mods := reshapeRows s.nSoundings s.parPerSounding par
  (List.range s.nSoundings).foldl
    (fun resp i => resp ++ (s.fops1D_.getD i default).response (mods.getD i []))
    []

/-- `LCModelling.createJacobian` (lines 353-358), as the trace of the
calls it delegates: reshape `par` into one row per sounding and call
`self._fops1D[i].createJacobian(mods[i])` for each `i`; each trace
element is the pair (operator index, model row passed).  The method body
has no other effect. -/
def LCcreateJacobianCalls (s : LCState) (par : List ℚ) :
    List (Nat × List ℚ) :=
  let mods := reshapeRows s.nSoundings s.parPerSounding par
  (List.range s.nSoundings).foldl (fun acc i => acc ++ [(i, mods.getD i [])]) []

/-- The `for i in range(nSoundings)` loop of `initJacobian`
(lines 431-439), recursing over the remaining sounding data with the
loop index `i`, the operator list being appended to, the block matrix
and the running data offset `nData` as accumulators: create a fresh
operator from the template, set its multi-thread Jacobian count to
`parPerSounding`, append it to `_fops1D`, add its Jacobian to the block
matrix at row offset `nData` and column offset `parPerSounding * i`,
then advance `nData` by the sounding's data length. -/
def initJacLoop (tmpl : Fop1D) (pps : Nat) :
    List (List ℚ) → Nat → List Fop1D → BlockMatrix → Nat →
      List Fop1D × BlockMatrix
  | [], _, fops, bm, _ => (fops, bm)
  | dv :: rest, i, fops, bm, nData =>
      let f : Fop1D := { tmpl with multiThreadJacobian := pps }
      let p := bm.addMatrix
      let bm2 := p.2.addMatrixEntry p.1 nData (pps * i)
      initJacLoop tmpl pps rest (i + 1) (fops ++ [f]) bm2 (nData + dv.length)

/-- `LCModelling.initJacobian` (lines 409-443).  It sets
`nSoundings = len(dataVals)` and, through
`createParametrization(nSoundings, nLayers, nPar=1)` (lines 360-393),
`parPerSounding = (nPar+1)*nLayers - 1 = 2*nLayers - 1` (mesh creation
is native and not modelled); clears the block matrix (or creates an
empty one); resets the attribute literally named `fops1D` — line 429
reads `self.fops1D = []`, so `_fops1D` is NOT reset — then runs the
loop appending to `_fops1D`; finally installs the block matrix as the
composite Jacobian via `setJacobian`. -/
def initJacobian (s : LCState) (dataVals : List (List ℚ)) (nLayers : Nat) :
    LCState :=
  let nSoundings := dataVals.length
  let pps := 2 * nLayers - 1
  let bm0 : BlockMatrix := match s.jac with
    | some j => j.clear
    | none => { numMatrices := 0, entries := [] }
  let r := initJacLoop s.fopTemplate pps dataVals 0 s.fops1D_ bm0 0
  { s with
    nSoundings := nSoundings
    parPerSounding := pps
    fops1DAttr := []
    fops1D_ := r.1
    jac := some r.2
    installedJacobian := some r.2 }

/-! ## Lemmas about the region-property cache -/

theorem lookupRegion_updateRegion (c : RegionCache) (k r : Nat)
    (v : RegionRecord) :
    lookupRegion (updateRegion c k v) r =
      if k = r then some v else lookupRegion c r := by
  induction c with
  | nil => simp [updateRegion, lookupRegion]
  | cons p rest ih =>
      obtain ⟨k', w⟩ := p
      by_cases hk : k' = k
      · subst hk
        simp only [updateRegion, if_pos rfl, lookupRegion]
        by_cases hr : k' = r <;> simp [hr]
      · simp only [updateRegion, if_neg hk, lookupRegion]
        by_cases hr : k' = r
        · subst hr
          have : ¬ k = k' := fun h => hk h.symm
          simp [this]
        · simp [hr, ih]

theorem lookupRegion_applyCalls (calls : List (Nat × SetRegionArgs))
    (c : RegionCache) (r : Nat) :
    lookupRegion (applyCalls c calls) r =
      if callsFor r calls = [] then lookupRegion c r
      else some ((callsFor r calls).foldl applyArgs
        ((lookupRegion c r).getD defaultRegionRecord)) := by
  induction calls generalizing c with
  | nil => simp [applyCalls, callsFor]
  | cons p rest ih =>
      obtain ⟨k, a⟩ := p
      have hstep : applyCalls c ((k, a) :: rest) =
          applyCalls (setRegionProperties c k a) rest := rfl
      by_cases hk : k = r
      · subst hk
        have hlk : lookupRegion (setRegionProperties c k a) k =
            some (applyArgs ((lookupRegion c k).getD defaultRegionRecord) a) := by
          simp [setRegionProperties, lookupRegion_updateRegion]
        rw [hstep, ih]
        simp only [callsFor, if_pos rfl, hlk]
        by_cases hrest : callsFor k rest = []
        · simp [hrest]
        · simp [hrest]
      · have hlk : lookupRegion (setRegionProperties c k a) r =
            lookupRegion c r := by
          simp [setRegionProperties, lookupRegion_updateRegion, hk]
        rw [hstep, ih, hlk]
        simp [callsFor, hk]

theorem foldl_applyArgs_field {α : Type} (pr : RegionRecord → α)
    (sel : SetRegionArgs → Option α)
    (hfield : ∀ rec a, pr (applyArgs rec a) = (sel a).getD (pr rec))
    (args : List SetRegionArgs) :
    ∀ start : RegionRecord,
      pr (args.foldl applyArgs start) = lastD (pr start) (args.map sel) := by
  induction args with
  | nil => intro start; simp [lastD]
  | cons a rest ih =>
      intro start
      simp only [List.foldl_cons, List.map_cons, lastD, List.foldl_cons]
      rw [← lastD, ih (applyArgs start a), hfield]

theorem lastD_append_some {α : Type} (d : α) (l : List (Option α)) (v : α) :
    lastD d (l ++ [some v]) = v := by
  simp [lastD]

theorem lastD_append_none {α : Type} (d : α) (l : List (Option α)) :
    lastD d (l ++ [none]) = lastD d l := by
  simp [lastD]

/-- Claim C1: for every region and every field of its cached record,
after any sequence of `setRegionProperties` calls (starting from the
empty cache of a fresh `Modelling` object) the stored value of that
field is the last non-`None` value passed for it among the calls
targeting that region, falling back to the initialization default when
every call passed `None` for it — i.e. last write wins per field and a
`None` argument leaves the field unchanged (`lastD` returns the last
`some` of the per-call argument list, else the default). -/
theorem setRegionProperties_lastWriteWins
    (calls : List (Nat × SetRegionArgs)) (r : Nat)
    (h : callsFor r calls ≠ []) :
    ∃ rec, lookupRegion (applyCalls [] calls) r = some rec ∧
      rec.startModel = lastD defaultRegionRecord.startModel
        ((callsFor r calls).map SetRegionArgs.startModel) ∧
      rec.limits = lastD defaultRegionRecord.limits
        ((callsFor r calls).map SetRegionArgs.limits) ∧
      rec.trans = lastD defaultRegionRecord.trans
        ((callsFor r calls).map SetRegionArgs.trans) ∧
      rec.cType = lastD defaultRegionRecord.cType
        ((callsFor r calls).map SetRegionArgs.cType) ∧
      rec.zWeights = lastD defaultRegionRecord.zWeights
        ((callsFor r calls).map SetRegionArgs.zWeights) ∧
      rec.modelControl = lastD defaultRegionRecord.modelControl
        ((callsFor r calls).map SetRegionArgs.modelControl) := by
  refine ⟨(callsFor r calls).foldl applyArgs defaultRegionRecord, ?_, ?_, ?_, ?_, ?_, ?_, ?_⟩
  · rw [lookupRegion_applyCalls calls [] r]
    simp [lookupRegion, h]
  · exact foldl_applyArgs_field RegionRecord.startModel SetRegionArgs.startModel
      (fun _ _ => rfl) (callsFor r calls) defaultRegionRecord
  · exact foldl_applyArgs_field RegionRecord.limits SetRegionArgs.limits
      (fun _ _ => rfl) (callsFor r calls) defaultRegionRecord
  · exact foldl_applyArgs_field RegionRecord.trans SetRegionArgs.trans
      (fun _ _ => rfl) (callsFor r calls) defaultRegionRecord
  · exact foldl_applyArgs_field RegionRecord.cType SetRegionArgs.cType
      (fun _ _ => rfl) (callsFor r calls) defaultRegionRecord
  · exact foldl_applyArgs_field RegionRecord.zWeights SetRegionArgs.zWeights
      (fun _ _ => rfl) (callsFor r calls) defaultRegionRecord
  · exact foldl_applyArgs_field RegionRecord.modelControl SetRegionArgs.modelControl
      (fun _ _ => rfl) (callsFor r calls) defaultRegionRecord

/-- A concrete three-call sequence: region 1 gets `startModel := 5`,
then region 2 gets a write, then region 1 gets `trans := "lin"` with
`startModel = None` (so the earlier 5 must survive). -/
def callsEx : List (Nat × SetRegionArgs) :=
  [ (1, { startModel := some 5, limits := none, trans := none,
          cType := none, zWeights := none, modelControl := none }),
    (2, { startModel := some 7, limits := none, trans := none,
          cType := none, zWeights := none, modelControl := none }),
    (1, { startModel := none, limits := none, trans := some "lin",
          cType := some 2, zWeights := none, modelControl := none }) ]

/-- Witness for `setRegionProperties_lastWriteWins` at `callsEx`,
region 1. -/
theorem setRegionProperties_lastWriteWins_witness :
    callsFor 1 callsEx ≠ [] ∧
    ∃ rec, lookupRegion (applyCalls [] callsEx) 1 = some rec ∧
      rec.startModel = lastD defaultRegionRecord.startModel
        ((callsFor 1 callsEx).map SetRegionArgs.startModel) ∧
      rec.limits = lastD defaultRegionRecord.limits
        ((callsFor 1 callsEx).map SetRegionArgs.limits) ∧
      rec.trans = lastD defaultRegionRecord.trans
        ((callsFor 1 callsEx).map SetRegionArgs.trans) ∧
      rec.cType = lastD defaultRegionRecord.cType
        ((callsFor 1 callsEx).map SetRegionArgs.cType) ∧
      rec.zWeights = lastD defaultRegionRecord.zWeights
        ((callsFor 1 callsEx).map SetRegionArgs.zWeights) ∧
      rec.modelControl = lastD defaultRegionRecord.modelControl
        ((callsFor 1 callsEx).map SetRegionArgs.modelControl) :=
  ⟨by decide, setRegionProperties_lastWriteWins callsEx 1 (by decide)⟩

/-- Claim C9: a `setRegionProperties` call for a region not yet in the
cache first initializes the record to the defaults `startModel = 0`,
`modelControl = 1.0`, `zWeights = 1.0`, `cType = 1`, `limits = [0, 0]`,
`trans = "Log"`, and then overwrites exactly the fields whose arguments
are not `None` (`applyArgs`). -/
theorem setRegionProperties_initDefaults (cache : RegionCache) (r : Nat)
    (a : SetRegionArgs) (h : lookupRegion cache r = none) :
    lookupRegion (setRegionProperties cache r a) r =
      some (applyArgs
        { startModel := 0, modelControl := 1, zWeights := 1,
          cType := 1, limits := (0, 0), trans := "Log" } a) := by
  simp [setRegionProperties, lookupRegion_updateRegion, h, defaultRegionRecord]

/-- Witness for `setRegionProperties_initDefaults`: a cache holding only
region 2, written at region 1. -/
theorem setRegionProperties_initDefaults_witness :
    lookupRegion [(2, defaultRegionRecord)] 1 = none ∧
    lookupRegion (setRegionProperties [(2, defaultRegionRecord)] 1
        { startModel := some 3, limits := none, trans := none,
          cType := none, zWeights := none, modelControl := some 4 }) 1 =
      some (applyArgs
        { startModel := 0, modelControl := 1, zWeights := 1,
          cType := 1, limits := (0, 0), trans := "Log" }
        { startModel := some 3, limits := none, trans := none,
          cType := none, zWeights := none, modelControl := some 4 }) :=
  ⟨by decide,
   setRegionProperties_initDefaults [(2, defaultRegionRecord)] 1
     { startModel := some 3, limits := none, trans := none,
       cType := none, zWeights := none, modelControl := some 4 } (by decide)⟩

/-! ## Lemmas about applying cached properties to the region manager -/

theorem lookupRegion_eq_none_of_not_mem (cache : RegionCache) (r : Nat)
    (h : r ∉ cache.map Prod.fst) : lookupRegion cache r = none := by
  induction cache with
  | nil => rfl
  | cons p rest ih =>
      obtain ⟨k, v⟩ := p
      simp only [List.map_cons, List.mem_cons] at h
      push_neg at h
      simp only [lookupRegion]
      rw [if_neg (fun hk => h.1 hk.symm)]
      exact ih h.2

theorem applyProps_regions_of_none (cache : RegionCache) (rm : RegionManager)
    (r : Nat) (h : lookupRegion cache r = none) :
    (applyProps cache rm).regions r = rm.regions r := by
  induction cache generalizing rm with
  | nil => rfl
  | cons p rest ih =>
      obtain ⟨k, v⟩ := p
      simp only [lookupRegion] at h
      by_cases hk : k = r
      · simp [hk] at h
      · rw [if_neg hk] at h
        simp only [applyProps]
        rw [ih _ h]
        have hrk : ¬ r = k := fun hr => hk hr.symm
        simp [hrk]

theorem applyProps_regions_of_some (cache : RegionCache) (rm : RegionManager)
    (r : Nat) (vals : RegionRecord)
    (hnd : (cache.map Prod.fst).Nodup)
    (h : lookupRegion cache r = some vals) :
    (applyProps cache rm).regions r = writeVals vals (rm.regions r) := by
  induction cache generalizing rm with
  | nil => simp [lookupRegion] at h
  | cons p rest ih =>
      obtain ⟨k, v⟩ := p
      simp only [List.map_cons, List.nodup_cons] at hnd
      simp only [lookupRegion] at h
      by_cases hk : k = r
      · rw [if_pos hk] at h
        subst hk
        obtain rfl : v = vals := by simpa using h
        simp only [applyProps]
        rw [applyProps_regions_of_none rest _ k
          (lookupRegion_eq_none_of_not_mem rest k hnd.1)]
        simp
      · rw [if_neg hk] at h
        simp only [applyProps]
        rw [ih _ hnd.2 h]
        have hrk : ¬ r = k := fun hr => hk hr.symm
        simp [hrk]

theorem writeVals_idem (vals : RegionRecord) (reg : RMRegion) :
    writeVals vals (writeVals vals reg) = writeVals vals reg := by
  simp only [writeVals]
  by_cases h1 : vals.limits.1 > 0 <;> by_cases h2 : vals.limits.2 > 0 <;>
    simp [h1, h2]

/-- Claim C4: `regionManager()` and the `transModel` getter first apply
every cached record to the region manager — setting start model,
transformation, constraint type, z-weight and model control for each
cached region — before the manager (resp. transformation) is returned:
the manager handed back, the state's manager after the call, and the
state's manager after the `transModel` getter all carry the cached
values (lazy application at use time). -/
theorem regionManager_appliesCache (s : ModellingState)
    (hnd : (s.regionProperties.map Prod.fst).Nodup)
    (r : Nat) (vals : RegionRecord)
    (hr : lookupRegion s.regionProperties r = some vals) :
    ((regionManager s).2.regions r).startModel = vals.startModel ∧
    ((regionManager s).2.regions r).transStr = vals.trans ∧
    ((regionManager s).2.regions r).cType = vals.cType ∧
    ((regionManager s).2.regions r).zWeight = vals.zWeights ∧
    ((regionManager s).2.regions r).modelControl = vals.modelControl ∧
    (regionManager s).1.rm = (regionManager s).2 ∧
    (transModel s).1.rm = (regionManager s).2 := by
  have hreg : (regionManager s).2.regions r = writeVals vals (s.rm.regions r) :=
    applyProps_regions_of_some s.regionProperties s.rm r vals hnd hr
  refine ⟨?_, ?_, ?_, ?_, ?_, rfl, ?_⟩
  · rw [hreg]; rfl
  · rw [hreg]; rfl
  · rw [hreg]; rfl
  · rw [hreg]; rfl
  · rw [hreg]; rfl
  · by_cases hl : (applyRegionProperties s).rm.haveLocalTrans <;>
      simp [transModel, regionManager, hl]

/-- A concrete native region state for witnesses. -/
def rmRegionEx : RMRegion :=
  { startModel := 9, transStr := "Cot", cType := 0, zWeight := 9,
    modelControl := 9, lowerBound := 9, upperBound := 9 }

/-- A concrete region manager for witnesses. -/
def rmEx : RegionManager :=
  { regions := fun _ => rmRegionEx, haveLocalTrans := false,
    localTransStr := "Cot" }

/-- A concrete cached record: limits `(1, 0)`, so the lower bound is set
and the upper bound is left untouched when applied. -/
def recEx : RegionRecord :=
  { startModel := 2, modelControl := 3, zWeights := 4, cType := 5,
    limits := (1, 0), trans := "log" }

/-- A concrete facade state caching `recEx` for region 1. -/
def sEx : ModellingState :=
  { regionProperties := [(1, recEx)], transModelField := "RTransLog",
    rm := rmEx }

/-- Witness for `regionManager_appliesCache` at `sEx`, region 1. -/
theorem regionManager_appliesCache_witness :
    (sEx.regionProperties.map Prod.fst).Nodup ∧
    lookupRegion sEx.regionProperties 1 = some recEx ∧
    (((regionManager sEx).2.regions 1).startModel = recEx.startModel ∧
     ((regionManager sEx).2.regions 1).transStr = recEx.trans ∧
     ((regionManager sEx).2.regions 1).cType = recEx.cType ∧
     ((regionManager sEx).2.regions 1).zWeight = recEx.zWeights ∧
     ((regionManager sEx).2.regions 1).modelControl = recEx.modelControl ∧
     (regionManager sEx).1.rm = (regionManager sEx).2 ∧
     (transModel sEx).1.rm = (regionManager sEx).2) :=
  ⟨by decide, by decide,
   regionManager_appliesCache sEx (by decide) 1 recEx (by decide)⟩

/-- Claim C7: applying the cached region properties never modifies the
cache itself — `_regionProperties` is the same mapping before and after
— and therefore a repeated application writes the same values: a second
`_applyRegionProperties` leaves every region of the manager exactly as
the first left it. -/
theorem applyRegionProperties_frame (s : ModellingState)
    (hnd : (s.regionProperties.map Prod.fst).Nodup) :
    (applyRegionProperties s).regionProperties = s.regionProperties ∧
    ∀ r, (applyRegionProperties (applyRegionProperties s)).rm.regions r =
      (applyRegionProperties s).rm.regions r := by
  refine ⟨rfl, fun r => ?_⟩
  show (applyProps s.regionProperties (applyProps s.regionProperties s.rm)).regions r
      = (applyProps s.regionProperties s.rm).regions r
  cases h : lookupRegion s.regionProperties r with
  | none =>
      rw [applyProps_regions_of_none _ _ _ h, applyProps_regions_of_none _ _ _ h]
  | some vals =>
      rw [applyProps_regions_of_some _ _ _ _ hnd h,
        applyProps_regions_of_some _ _ _ _ hnd h]
      exact writeVals_idem vals (s.rm.regions r)

/-- Witness for `applyRegionProperties_frame` at `sEx`. -/
theorem applyRegionProperties_frame_witness :
    (sEx.regionProperties.map Prod.fst).Nodup ∧
    ((applyRegionProperties sEx).regionProperties = sEx.regionProperties ∧
     ∀ r, (applyRegionProperties (applyRegionProperties sEx)).rm.regions r =
       (applyRegionProperties sEx).rm.regions r) :=
  ⟨by decide, applyRegionProperties_frame sEx (by decide)⟩

/-- Claim C10: when the cached properties are applied, the lower bound
is written only when the cached `limits[0]` is strictly positive and the
upper bound only when `limits[1]` is strictly positive — otherwise the
corresponding bound keeps whatever value the region manager had — while
start model, transformation, constraint type, z-weight and model control
are always written. -/
theorem applyRegionProperties_boundsConditional (s : ModellingState)
    (hnd : (s.regionProperties.map Prod.fst).Nodup)
    (r : Nat) (vals : RegionRecord)
    (hr : lookupRegion s.regionProperties r = some vals) :
    (vals.limits.1 > 0 →
      ((applyRegionProperties s).rm.regions r).lowerBound = vals.limits.1) ∧
    (¬ vals.limits.1 > 0 →
      ((applyRegionProperties s).rm.regions r).lowerBound =
        (s.rm.regions r).lowerBound) ∧
    (vals.limits.2 > 0 →
      ((applyRegionProperties s).rm.regions r).upperBound = vals.limits.2) ∧
    (¬ vals.limits.2 > 0 →
      ((applyRegionProperties s).rm.regions r).upperBound =
        (s.rm.regions r).upperBound) ∧
    ((applyRegionProperties s).rm.regions r).startModel = vals.startModel ∧
    ((applyRegionProperties s).rm.regions r).transStr = vals.trans ∧
    ((applyRegionProperties s).rm.regions r).cType = vals.cType ∧
    ((applyRegionProperties s).rm.regions r).zWeight = vals.zWeights ∧
    ((applyRegionProperties s).rm.regions r).modelControl =
      vals.modelControl := by
  have hreg : (applyRegionProperties s).rm.regions r =
      writeVals vals (s.rm.regions r) :=
    applyProps_regions_of_some s.regionProperties s.rm r vals hnd hr
  rw [hreg]
  refine ⟨fun h1 => ?_, fun h1 => ?_, fun h2 => ?_, fun h2 => ?_,
    rfl, rfl, rfl, rfl, rfl⟩
  · simp [writeVals, h1]
  · simp [writeVals, h1]
  · simp [writeVals, h2]
  · simp [writeVals, h2]

/-- Witness for `applyRegionProperties_boundsConditional` at `sEx`,
region 1: `recEx.limits = (1, 0)`, so the lower bound is written to 1
and the upper bound keeps the manager's previous value 9. -/
theorem applyRegionProperties_boundsConditional_witness :
    (sEx.regionProperties.map Prod.fst).Nodup ∧
    lookupRegion sEx.regionProperties 1 = some recEx ∧
    ((recEx.limits.1 > 0 →
       ((applyRegionProperties sEx).rm.regions 1).lowerBound = recEx.limits.1) ∧
     (¬ recEx.limits.1 > 0 →
       ((applyRegionProperties sEx).rm.regions 1).lowerBound =
         (sEx.rm.regions 1).lowerBound) ∧
     (recEx.limits.2 > 0 →
       ((applyRegionProperties sEx).rm.regions 1).upperBound = recEx.limits.2) ∧
     (¬ recEx.limits.2 > 0 →
       ((applyRegionProperties sEx).rm.regions 1).upperBound =
         (sEx.rm.regions 1).upperBound) ∧
     ((applyRegionProperties sEx).rm.regions 1).startModel = recEx.startModel ∧
     ((applyRegionProperties sEx).rm.regions 1).transStr = recEx.trans ∧
     ((applyRegionProperties sEx).rm.regions 1).cType = recEx.cType ∧
     ((applyRegionProperties sEx).rm.regions 1).zWeight = recEx.zWeights ∧
     ((applyRegionProperties sEx).rm.regions 1).modelControl =
       recEx.modelControl) :=
  ⟨by decide, by decide,
   applyRegionProperties_boundsConditional sEx (by decide) 1 recEx (by decide)⟩

/-- Claim C8: the unimplemented abstract methods of the base `Modelling`
class, `createStartModel` and `estimateError`, raise for every input,
unconditionally. -/
theorem abstractMethods_raise (dataValues data : List ℚ) :
    createStartModel dataValues =
      Except.error "Implement me in derived classes" ∧
    estimateError data =
      Except.error "Needed?? Implement me in derived classes" :=
  ⟨rfl, rfl⟩

/-! ## Lemmas about LCModelling orchestration -/

theorem reshapeRows_getD (n : Nat) :
    ∀ (pps : Nat) (l : List ℚ) (i : Nat), i < n →
      (reshapeRows n pps l).getD i [] = (l.drop (pps * i)).take pps := by
  induction n with
  | zero => intro pps l i hi; omega
  | succ n ih =>
      intro pps l i hi
      cases i with
      | zero => simp [reshapeRows]
      | succ i =>
          have hi' : i < n := Nat.lt_of_succ_lt_succ hi
          simp only [reshapeRows, List.getD_cons_succ]
          rw [ih pps (l.drop pps) i hi', List.drop_drop]
          congr 2
          ring

theorem foldl_append_eq_join {α β : Type} (g : α → List β) (l : List α) :
    ∀ init : List β,
      l.foldl (fun acc i => acc ++ g i) init = init ++ (l.map g).flatten := by
  induction l with
  | nil => intro init; simp
  | cons a rest ih =>
      intro init
      simp only [List.foldl_cons, List.map_cons, List.flatten_cons]
      rw [ih (init ++ g a), List.append_assoc]

theorem foldl_append_singleton {α β : Type} (g : α → β) (l : List α) :
    ∀ init : List β,
      l.foldl (fun acc i => acc ++ [g i]) init = init ++ l.map g := by
  induction l with
  | nil => intro init; simp
  | cons a rest ih =>
      intro init
      simp only [List.foldl_cons, List.map_cons]
      rw [ih (init ++ [g a]), List.append_assoc]
      rfl

/-- Claim C2: for every parameter vector of length
`nSoundings * parPerSounding` (and operators set up, one per sounding),
`LCModelling.response` returns the concatenation, in sounding order, of
each per-sounding operator's response applied to its consecutive chunk
of `parPerSounding` entries of the vector. -/
theorem LCresponse_concat (s : LCState) (par : List ℚ)
    (hpar : par.length = s.nSoundings * s.parPerSounding)
    (hops : s.fops1D_.length = s.nSoundings) :
    LCresponse s par =
      ((List.range s.nSoundings).map (fun i =>
        (s.fops1D_.getD i default).response
          ((par.drop (s.parPerSounding * i)).take s.parPerSounding))).flatten := by
  unfold LCresponse
  rw [foldl_append_eq_join, List.nil_append]
  congr 1
  refine List.map_congr_left (fun i hi => ?_)
  rw [reshapeRows_getD s.nSoundings s.parPerSounding par i (List.mem_range.mp hi)]

/-- A concrete `LCState` for the response/createJacobian witnesses: two
soundings, three parameters each; the first operator sums its model, the
second echoes it. -/
def lcEx : LCState :=
  { fopTemplate := { response := fun m => [m.foldl (· + ·) 0],
                     multiThreadJacobian := 0 }
    fops1D_ := [ { response := fun m => [m.foldl (· + ·) 0],
                   multiThreadJacobian := 3 },
                 { response := fun m => m, multiThreadJacobian := 3 } ]
    fops1DAttr := []
    nSoundings := 2
    parPerSounding := 3
    jac := none
    installedJacobian := none }

/-- Witness for `LCresponse_concat` at `lcEx` and the parameter vector
`[1, 2, 3, 4, 5, 6]`: the response is `[6] ++ [4, 5, 6]`. -/
theorem LCresponse_concat_witness :
    ([(1 : ℚ), 2, 3, 4, 5, 6].length =
      lcEx.nSoundings * lcEx.parPerSounding) ∧
    (lcEx.fops1D_.length = lcEx.nSoundings) ∧
    LCresponse lcEx [1, 2, 3, 4, 5, 6] =
      ((List.range lcEx.nSoundings).map (fun i =>
        (lcEx.fops1D_.getD i default).response
          (([(1 : ℚ), 2, 3, 4, 5, 6].drop (lcEx.parPerSounding * i)).take
            lcEx.parPerSounding))).flatten :=
  ⟨by decide, rfl,
   LCresponse_concat lcEx [1, 2, 3, 4, 5, 6] (by decide) rfl⟩

/-- Claim C6: for every parameter vector of length
`nSoundings * parPerSounding`, `LCModelling.createJacobian` reshapes it
into `nSoundings` rows of `parPerSounding` entries and delegates exactly
one `createJacobian` call to the `i`-th per-sounding operator with row
`i`, for each `i`; its trace holds nothing but these calls (it computes
no Jacobian of its own). -/
theorem LCcreateJacobian_delegates (s : LCState) (par : List ℚ)
    (hpar : par.length = s.nSoundings * s.parPerSounding) :
    LCcreateJacobianCalls s par =
      (List.range s.nSoundings).map (fun i =>
        (i, (par.drop (s.parPerSounding * i)).take s.parPerSounding)) := by
  unfold LCcreateJacobianCalls
  rw [foldl_append_singleton, List.nil_append]
  refine List.map_congr_left (fun i hi => ?_)
  rw [reshapeRows_getD s.nSoundings s.parPerSounding par i (List.mem_range.mp hi)]

/-- Witness for `LCcreateJacobian_delegates` at `lcEx` and
`[1, 2, 3, 4, 5, 6]`: the trace is
`[(0, [1, 2, 3]), (1, [4, 5, 6])]`. -/
theorem LCcreateJacobian_delegates_witness :
    ([(1 : ℚ), 2, 3, 4, 5, 6].length =
      lcEx.nSoundings * lcEx.parPerSounding) ∧
    LCcreateJacobianCalls lcEx [1, 2, 3, 4, 5, 6] =
      (List.range lcEx.nSoundings).map (fun i =>
        (i, ([(1 : ℚ), 2, 3, 4, 5, 6].drop (lcEx.parPerSounding * i)).take
          lcEx.parPerSounding)) :=
  ⟨by decide, LCcreateJacobian_delegates lcEx [1, 2, 3, 4, 5, 6] (by decide)⟩

theorem initJacLoop_spec (tmpl : Fop1D) (pps : Nat) (dvs : List (List ℚ)) :
    ∀ (i : Nat) (fops : List Fop1D) (bm : BlockMatrix) (nData : Nat),
      (initJacLoop tmpl pps dvs i fops bm nData).1 =
        fops ++ List.replicate dvs.length
          { tmpl with multiThreadJacobian := pps } ∧
      (initJacLoop tmpl pps dvs i fops bm nData).2.numMatrices =
        bm.numMatrices + dvs.length ∧
      (initJacLoop tmpl pps dvs i fops bm nData).2.entries =
        bm.entries ++ (List.range dvs.length).map (fun j =>
          (bm.numMatrices + j,
           nData + ((dvs.take j).map List.length).sum,
           pps * (i + j))) := by
  induction dvs with
  | nil => intro i fops bm nData; simp [initJacLoop]
  | cons dv rest ih =>
      intro i fops bm nData
      obtain ⟨ih1, ih2, ih3⟩ := ih (i + 1) (fops ++ [{ tmpl with multiThreadJacobian := pps }])
        ((bm.addMatrix.2).addMatrixEntry bm.addMatrix.1 nData (pps * i))
        (nData + dv.length)
      refine ⟨?_, ?_, ?_⟩
      · rw [show (initJacLoop tmpl pps (dv :: rest) i fops bm nData).1 =
            (initJacLoop tmpl pps rest (i + 1)
              (fops ++ [{ tmpl with multiThreadJacobian := pps }])
              ((bm.addMatrix.2).addMatrixEntry bm.addMatrix.1 nData (pps * i))
              (nData + dv.length)).1 from rfl, ih1]
        simp [List.replicate_succ, List.append_assoc]
      · rw [show (initJacLoop tmpl pps (dv :: rest) i fops bm nData).2 =
            (initJacLoop tmpl pps rest (i + 1)
              (fops ++ [{ tmpl with multiThreadJacobian := pps }])
              ((bm.addMatrix.2).addMatrixEntry bm.addMatrix.1 nData (pps * i))
              (nData + dv.length)).2 from rfl, ih2]
        simp [BlockMatrix.addMatrix, BlockMatrix.addMatrixEntry]
        omega
      · rw [show (initJacLoop tmpl pps (dv :: rest) i fops bm nData).2 =
            (initJacLoop tmpl pps rest (i + 1)
              (fops ++ [{ tmpl with multiThreadJacobian := pps }])
              ((bm.addMatrix.2).addMatrixEntry bm.addMatrix.1 nData (pps * i))
              (nData + dv.length)).2 from rfl, ih3]
        simp only [BlockMatrix.addMatrix, BlockMatrix.addMatrixEntry]
        rw [List.length_cons, List.range_succ_eq_map, List.map_cons,
          List.append_assoc, List.singleton_append, List.map_map]
        congr 1
        congr 1
        refine List.map_congr_left (fun j hj => ?_)
        simp only [Function.comp_apply, List.take_succ_cons, List.map_cons,
          List.sum_cons, Prod.mk.injEq]
        refine ⟨by omega, by omega, by congr 1; omega⟩

/-- Claim C3: `initJacobian(dataVals, nLayers)` registers the `i`-th
sounding's Jacobian (matrix id `i` in a freshly cleared block matrix) at
row offset `len(dataVals[0]) + ... + len(dataVals[i-1])` and column
offset `parPerSounding * i`, for every sounding `i`, and installs the
resulting block matrix as the composite Jacobian (`setJacobian`). -/
theorem initJacobian_blockOffsets (s : LCState) (dataVals : List (List ℚ))
    (nLayers : Nat) :
    (initJacobian s dataVals nLayers).installedJacobian =
      (initJacobian s dataVals nLayers).jac ∧
    ∃ bm, (initJacobian s dataVals nLayers).jac = some bm ∧
      bm.numMatrices = dataVals.length ∧
      bm.entries = (List.range dataVals.length).map (fun i =>
        (i, ((dataVals.take i).map List.length).sum,
          (initJacobian s dataVals nLayers).parPerSounding * i)) := by
  have hbm0 : (initJacobian s dataVals nLayers).jac =
      some (initJacLoop s.fopTemplate (2 * nLayers - 1) dataVals 0 s.fops1D_
        { numMatrices := 0, entries := [] } 0).2 := by
    unfold initJacobian
    cases s.jac <;> rfl
  have hpps : (initJacobian s dataVals nLayers).parPerSounding =
      2 * nLayers - 1 := by
    unfold initJacobian
    cases s.jac <;> rfl
  have hinst : (initJacobian s dataVals nLayers).installedJacobian =
      (initJacobian s dataVals nLayers).jac := by
    unfold initJacobian
    cases s.jac <;> rfl
  obtain ⟨h1, h2, h3⟩ := initJacLoop_spec s.fopTemplate (2 * nLayers - 1)
    dataVals 0 s.fops1D_ { numMatrices := 0, entries := [] } 0
  refine ⟨hinst, ⟨_, hbm0, ?_, ?_⟩⟩
  · rw [h2]; simp
  · rw [h3, hpps, List.nil_append]
    refine List.map_congr_left (fun j hj => ?_)
    simp

/-- A concrete operator for the `initJacobian` evaluations: its response
sums the model. -/
def fopEx : Fop1D :=
  { response := fun m => [m.foldl (· + ·) 0], multiThreadJacobian := 0 }

/-- A freshly constructed `LCModelling` state (constructor
lines 308-322): empty operator list, no Jacobian yet. -/
def lcFresh : LCState :=
  { fopTemplate := fopEx, fops1D_ := [], fops1DAttr := [],
    nSoundings := 0, parPerSounding := 0, jac := none,
    installedJacobian := none }

/-- Claim C5 fails on the code: `initJacobian` resets the attribute
literally spelled `fops1D` (line 429 reads `self.fops1D = []`, a slip
for `self._fops1D`), so `_fops1D` — the list `response` and
`createJacobian` index — accumulates across calls.  On a fresh object a
first call with one sounding leaves 1 operator as the claim says, but a
second call with two soundings leaves 3 operators, not 2. -/
theorem initJacobian_fops1D_accumulates :
    ((initJacobian lcFresh [[1, 2, 3]] 2).fops1D_).length = 1 ∧
    ((initJacobian (initJacobian lcFresh [[1, 2, 3]] 2)
        [[4], [5]] 2).fops1D_).length = 3 ∧
    ¬ ((initJacobian (initJacobian lcFresh [[1, 2, 3]] 2)
        [[4], [5]] 2).fops1D_).length = 2 := by
  refine ⟨rfl, rfl, fun h => ?_⟩
  have h3 : ((initJacobian (initJacobian lcFresh [[1, 2, 3]] 2)
      [[4], [5]] 2).fops1D_).length = 3 := rfl
  exact absurd (h3.symm.trans h) (by decide)
